import Mathlib

/-!
Verification of the SEIZ-SM epidemic-model repository (seiz_models package).

The development shallowly embeds the simulation core: the four-valued agent
state, the shared pseudo-random generator (threaded explicitly), agent-state
initialization, the three per-step transition engines (baseline SEIZ,
basic-moderator SEIZ-BM, smart-moderator SEIZ-SM), the state-count snapshot
`count_states`, the simulation driver `run`, and the export/plot entry points.
Python dictionaries keyed by graph nodes become total functions `Nat → _`
read through the graph's node list; Python list indexing (which raises
`IndexError` out of range) becomes `Option`; `float` arithmetic on rates,
probabilities and random draws is embedded as exact rational arithmetic
(`ℚ`), except for the transcendental `rate_to_prob`, embedded over `ℝ`.
-/

set_option allowUnsafeReducibility true in
attribute [semireducible] Rat.mul Rat.add Rat.sub Rat.div Rat.inv

namespace SEIZ

/-- The four agent states of seiz_models: Susceptible, Exposed, Infected,
Skeptic (strings "S", "E", "I", "Z" in the source). -/
inductive AgState where
  | S
  | E
  | I
  | Z
deriving DecidableEq, Repr

/-- Modelled from the spec: the shared process-wide pseudo-random generator
(Python's `random` module, external library code) is modelled as a
deterministic state: a stream `fq` of rational draws in [0,1) backing
`random.random()`, a stream `fn` of naturals backing integer draws
(`random.choice` / shuffling), and a position counter. -/
structure Rng where
  fq : Nat → Rat
  fn : Nat → Nat
  pos : Nat

/-- One draw of `random.random()`: the next rational of the stream. -/
def randFloat (r : Rng) : Rat × Rng :=
  (r.fq r.pos, { r with pos := r.pos + 1 })

/-- One bounded integer draw (`random._randbelow(bound)` as used by
`random.choice` and `random.shuffle`). -/
def randNat (r : Rng) (bound : Nat) : Nat × Rng :=
  (r.fn r.pos % bound, { r with pos := r.pos + 1 })

/-- Modelled from the spec: `random.seed(k)` resets the generator to a state
that is a function of the seed alone; the concrete streams stand in for the
Mersenne Twister. -/
def seedRng (k : Nat) : Rng :=
  { fq := fun i => (((k + i) * 2654435761 + 1013904223) % 1000000 : Nat) / (1000000 : Rat)
    fn := fun i => ((k + i) * 2654435761 + 1013904223) % 4294967296
    pos := 0 }

/-- Python's `int()` applied to a number: truncation toward zero. -/
def pyInt (q : Rat) : Int :=
  if 0 ≤ q then ⌊q⌋ else ⌈q⌉

/-- The networkx graph handed to a model: its node list (`graph.nodes()`)
and its adjacency (`graph.neighbors`). -/
structure Graph where
  nodes : List Nat
  adj : Nat → List Nat

/-- Write one entry of a node-keyed dictionary of states. -/
def update (st : Nat → AgState) (v : Nat) (s : AgState) : Nat → AgState :=
  fun u => if u = v then s else st u

/-- Exchange of `x[i], x[j] = x[j], x[i]` inside `random.shuffle`. -/
def swapL (l : List Nat) (i j : Nat) : List Nat :=
  match l.get? i, l.get? j with
  | some a, some b => (l.set i b).set j a
  | _, _ => l

/-- The Fisher-Yates loop of `random.shuffle`: for i from n-1 down to 1,
draw j below i+1 and swap positions i and j. -/
def shuffleGo : List Nat → Rng → Nat → List Nat × Rng
  | l, r, 0 => (l, r)
  | l, r, Nat.succ k =>
    let jr := randNat r (k + 2)
    shuffleGo (swapL l (k + 1) jr.1) jr.2 k

/-- `random.shuffle(nodes)`: uniformly random in-place permutation. -/
def shuffle (l : List Nat) (r : Rng) : List Nat × Rng :=
  shuffleGo l r (l.length - 1)

/-- One indexed assignment loop `for i in idxs: states[nodes[i]] = val` of
`initialize_states`; Python raises `IndexError` when an index is out of
range, embedded as `none`. -/
def assignSeg (nodes : List Nat) (val : AgState) :
    List Nat → (Nat → AgState) → Option (Nat → AgState)
  | [], st => some st
  | i :: rest, st =>
    match nodes.get? i with
    | none => none
    | some v => assignSeg nodes val rest (update st v val)

/-- `SEIZModel.initialize_states` (seiz.py lines 88-118); the identical
method of `SEIZBMModel` (seiz_bm.py lines 98-128) differs only in writing
through one-field `Agent` records and is embedded by this same function.
Seeds the generator if a seed is given, shuffles the node list, resets every
node to S, sets the first `int(n*infected_frac)` shuffled nodes to I and the
next `int(n*skeptic_frac)` to Z. Fractions are the nonnegative values the
interface documents; `int` is truncation (`pyInt`). -/
def initialize_states (g : Graph) (infected_frac skeptic_frac : Rat)
    (seed : Option Nat) (st0 : Nat → AgState) (rng : Rng) :
    Option ((Nat → AgState) × Rng) :=
  let rng1 := match seed with
    | some k => seedRng k
    | none => rng
  let sh := shuffle g.nodes rng1
  let nodes := sh.1
  let n := nodes.length
  let st1 := nodes.foldl (fun st v => update st v AgState.S) st0
  let n_infected := (pyInt ((n : Rat) * infected_frac)).toNat
  let n_skeptic := (pyInt ((n : Rat) * skeptic_frac)).toNat
  (assignSeg nodes AgState.I (List.range n_infected) st1).bind fun st2 =>
    (assignSeg nodes AgState.Z (List.range' n_infected n_skeptic) st2).map
      fun st3 => (st3, sh.2)

/-- The string key under which a state is counted ("S"/"E"/"I"/"Z"). -/
def stateName : AgState → String
  | AgState.S => "S"
  | AgState.E => "E"
  | AgState.I => "I"
  | AgState.Z => "Z"

/-- One increment of `collections.Counter`: bump the entry of `k`, adding it
at the end when absent. -/
def bump (c : List (String × Nat)) (k : String) : List (String × Nat) :=
  match c with
  | [] => [(k, 1)]
  | (k', n) :: rest => if k' = k then (k', n + 1) :: rest else (k', n) :: bump rest k

/-- `Counter(states.values())`. -/
def tally (vals : List String) : List (String × Nat) :=
  vals.foldl bump []

/-- The zero-fill loop of `count_states`: add the key with count 0 when
missing. -/
def ensureKey (c : List (String × Nat)) (k : String) : List (String × Nat) :=
  if (c.lookup k).isSome then c else c ++ [(k, 0)]

/-- `BaseEpidemicModel.count_states` (base.py lines 70-83): tally the
per-node states, then guarantee all four keys S, E, I, Z are present. -/
def count_states (nodes : List Nat) (st : Nat → AgState) : List (String × Nat) :=
  ["S", "E", "I", "Z"].foldl ensureKey (tally (nodes.map (fun v => stateName (st v))))

/-- Dictionary read with default 0, used to state count properties. -/
def lookup0 (c : List (String × Nat)) (k : String) : Nat :=
  (c.lookup k).getD 0

/-- One history record of `run`: the `count_states` dictionary with the
`step` index added (base.py lines 98-99 and 104-105). -/
def mkRecord (nodes : List Nat) (st : Nat → AgState) (i : Nat) : List (String × Nat) :=
  count_states nodes st ++ [("step", i)]

/-- The stepping loop of `BaseEpidemicModel.run`, generic in the model state
`σ`: snapshot, step, repeat, with one final snapshot after the loop. -/
def runGo {σ : Type} (nodes : List Nat) (view : σ → Nat → AgState) (stepFn : σ → σ) :
    Nat → σ → Nat → List (List (String × Nat))
  | 0, s, i => [mkRecord nodes (view s) i]
  | Nat.succ k, s, i => mkRecord nodes (view s) i :: runGo nodes view stepFn k (stepFn s) (i + 1)

/-- `BaseEpidemicModel.run` (base.py lines 85-108): `prevHistory` is the
model's history field, which the method overwrites with a fresh list before
the loop. -/
def run {σ : Type} (nodes : List Nat) (view : σ → Nat → AgState) (stepFn : σ → σ)
    (prevHistory : List (List (String × Nat))) (steps : Nat) (s : σ) :
    List (List (String × Nat)) :=
  runGo nodes view stepFn steps s 0

/-- Append a proposed next state for a node to the `defaultdict(list)` of
proposals of `SEIZModel.step`. -/
def addProposal (ps : List (Nat × List AgState)) (v : Nat) (s : AgState) :
    List (Nat × List AgState) :=
  match ps with
  | [] => [(v, [s])]
  | (u, l) :: rest => if u = v then (u, l ++ [s]) :: rest else (u, l) :: addProposal rest v s

/-- The inner neighbor loop of the infectious-contact branch of
`SEIZModel.step` (seiz.py lines 127-133): every Susceptible neighbor draws
against `prob_contact_I`; on success one more draw against `p` picks the
proposal I or E. -/
def infectNeighbors (st : Nat → AgState) (nbs : List Nat) (probI p : Rat)
    (acc : List (Nat × List AgState) × Rng) : List (Nat × List AgState) × Rng :=
  nbs.foldl
    (fun acc nb =>
      if st nb = AgState.S then
        let xr := randFloat acc.2
        if xr.1 < probI then
          let yr := randFloat xr.2
          (addProposal acc.1 nb (if yr.1 < p then AgState.I else AgState.E), yr.2)
        else (acc.1, xr.2)
      else acc)
    acc

/-- The inner neighbor loop of the skeptic-contact branch of
`SEIZModel.step` (seiz.py lines 136-142). -/
def skepticNeighbors (st : Nat → AgState) (nbs : List Nat) (probZ l : Rat)
    (acc : List (Nat × List AgState) × Rng) : List (Nat × List AgState) × Rng :=
  nbs.foldl
    (fun acc nb =>
      if st nb = AgState.S then
        let xr := randFloat acc.2
        if xr.1 < probZ then
          let yr := randFloat xr.2
          (addProposal acc.1 nb (if yr.1 < l then AgState.Z else AgState.E), yr.2)
        else (acc.1, xr.2)
      else acc)
    acc

/-- The contact-based pass of `SEIZModel.step` (seiz.py lines 124-142),
iterating the state dictionary in node order. -/
def contactPhase (g : Graph) (st : Nat → AgState) (probI probZ p l : Rat)
    (acc : List (Nat × List AgState) × Rng) : List (Nat × List AgState) × Rng :=
  g.nodes.foldl
    (fun acc v =>
      match st v with
      | AgState.I => infectNeighbors st (g.adj v) probI p acc
      | AgState.Z => skepticNeighbors st (g.adj v) probZ l acc
      | _ => acc)
    acc

/-- The internal-progression pass of `SEIZModel.step` (seiz.py lines
144-149): E self-proposes I against `prob_E_to_I`, I self-proposes E against
`prob_I_to_E`; the draw happens only in the matching branch. -/
def internalPhase (g : Graph) (st : Nat → AgState) (pEI pIE : Rat)
    (acc : List (Nat × List AgState) × Rng) : List (Nat × List AgState) × Rng :=
  g.nodes.foldl
    (fun acc v =>
      if st v = AgState.E then
        let xr := randFloat acc.2
        (if xr.1 < pEI then addProposal acc.1 v AgState.I else acc.1, xr.2)
      else if st v = AgState.I then
        let xr := randFloat acc.2
        (if xr.1 < pIE then addProposal acc.1 v AgState.E else acc.1, xr.2)
      else acc)
    acc

/-- All proposals of one baseline step, collected against the state `st` at
the start of the step (both passes of seiz.py lines 122-149). -/
def baselineProposals (g : Graph) (probI probZ pEI pIE p l : Rat)
    (st : Nat → AgState) (r : Rng) : List (Nat × List AgState) × Rng :=
  internalPhase g st pEI pIE (contactPhase g st probI probZ p l ([], r))

/-- The synchronous commit of `SEIZModel.step` (seiz.py lines 151-155): for
each node with proposals, `random.choice` picks one and writes it. -/
def applyProposals (ps : List (Nat × List AgState)) (st : Nat → AgState) (r : Rng) :
    (Nat → AgState) × Rng :=
  ps.foldl
    (fun acc pr =>
      let jr := randNat acc.2 pr.2.length
      (update acc.1 pr.1 (pr.2.getD jr.1 AgState.S), jr.2))
    (st, r)

/-- `SEIZModel.step` (seiz.py lines 120-155). -/
def baselineStep (g : Graph) (probI probZ pEI pIE p l : Rat)
    (st : Nat → AgState) (r : Rng) : (Nat → AgState) × Rng :=
  let pr := baselineProposals g probI probZ pEI pIE p l st r
  applyProposals pr.1 st pr.2

/-- The Susceptible neighbor scan of `SEIZBMModel.step` (seiz_bm.py lines
138-149): scan neighbors in order; an Infected neighbor draws `beta` and on
success commits I (probability `p`) or E and stops; a Skeptic neighbor draws
`b` and on success commits Z (probability `l`) or E and stops; on a failed
draw the scan continues. -/
def bmScanS (st : Nat → AgState) (beta b p l : Rat) :
    List Nat → Rng → Option AgState × Rng
  | [], r => (none, r)
  | nb :: rest, r =>
    if st nb = AgState.I then
      let xr := randFloat r
      if xr.1 < beta then
        let yr := randFloat xr.2
        (some (if yr.1 < p then AgState.I else AgState.E), yr.2)
      else bmScanS st beta b p l rest xr.2
    else if st nb = AgState.Z then
      let xr := randFloat r
      if xr.1 < b then
        let yr := randFloat xr.2
        (some (if yr.1 < l then AgState.Z else AgState.E), yr.2)
      else bmScanS st beta b p l rest xr.2
    else bmScanS st beta b p l rest r

/-- The Exposed neighbor scan of `SEIZBMModel.step` (seiz_bm.py lines
156-164): the first Infected neighbor whose `rho` draw succeeds turns the
node Infected. -/
def bmScanE (st : Nat → AgState) (rho : Rat) :
    List Nat → Rng → Option AgState × Rng
  | [], r => (none, r)
  | nb :: rest, r =>
    if st nb = AgState.I then
      let xr := randFloat r
      if xr.1 < rho then (some AgState.I, xr.2)
      else bmScanE st rho rest xr.2
    else bmScanE st rho rest r

/-- Commit the buffered `new_states` dictionary of `SEIZBMModel.step`
(seiz_bm.py lines 173-175). -/
def applyNews (news : List (Nat × AgState)) (st : Nat → AgState) : Nat → AgState :=
  news.foldl (fun st pr => update st pr.1 pr.2) st

/-- The buffered node pass of `SEIZBMModel.step` (seiz_bm.py lines
132-171), collecting the `new_states` dictionary: S scans neighbors (first
successful match wins), E draws `epsilon` then scans Infected neighbors
against `rho`, I draws moderation `mu` then success `m` to return to S. -/
def bmPass (g : Graph) (beta b rho p epsilon l mu m : Rat)
    (st : Nat → AgState) (r : Rng) : List (Nat × AgState) × Rng :=
  g.nodes.foldl
    (fun (acc : List (Nat × AgState) × Rng) v =>
      match st v with
      | AgState.S =>
        let res := bmScanS st beta b p l (g.adj v) acc.2
        (match res.1 with
          | some s => acc.1 ++ [(v, s)]
          | none => acc.1, res.2)
      | AgState.E =>
        let xr := randFloat acc.2
        if xr.1 < epsilon then (acc.1 ++ [(v, AgState.I)], xr.2)
        else
          let res := bmScanE st rho (g.adj v) xr.2
          (match res.1 with
            | some s => acc.1 ++ [(v, s)]
            | none => acc.1, res.2)
      | AgState.I =>
        let xr := randFloat acc.2
        if xr.1 < mu then
          let yr := randFloat xr.2
          if yr.1 < m then (acc.1 ++ [(v, AgState.S)], yr.2) else (acc.1, yr.2)
        else (acc.1, xr.2)
      | AgState.Z => acc)
    ([], r)

/-- `SEIZBMModel.step` (seiz_bm.py lines 130-175): the buffered pass
followed by the single commit of `new_states`. -/
def bmStep (g : Graph) (beta b rho p epsilon l mu m : Rat)
    (st : Nat → AgState) (r : Rng) : (Nat → AgState) × Rng :=
  let pass := bmPass g beta b rho p epsilon l mu m st r
  (applyNews pass.1 st, pass.2)

/-- An agent of the smart-moderator model (seiz_sm.py lines 17-25): state,
Dark Triad profile, toxic-message counter and activity counter. -/
structure AgentSM where
  state : AgState
  profile : Rat × Rat × Rat
  toxic_messages : Nat
  activity_level : Nat
deriving DecidableEq, Repr

/-- Write one agent of the node-keyed store. -/
def updateA (store : Nat → AgentSM) (v : Nat) (a : AgentSM) : Nat → AgentSM :=
  fun u => if u = v then a else store u

/-- `SEIZSMModel.compute_toxicity` (seiz_sm.py lines 156-166): the mean of
the three Dark Triad traits. -/
def compute_toxicity (a : AgentSM) : Rat :=
  (a.profile.1 + a.profile.2.1 + a.profile.2.2) / 3

/-- `SEIZSMModel.moderator_intervention` (seiz_sm.py lines 168-185): below
the `theta` threshold nothing happens; at or above it, one draw against
`effective_eta = eta * (1 - mean-trait)` sends the agent to E and resets the
counter, else a second independent draw against `lambd` sends it to Z and
resets the counter. -/
def moderator_intervention (theta : Nat) (eta lambd : Rat) (a : AgentSM) (r : Rng) :
    AgentSM × Rng :=
  if theta ≤ a.toxic_messages then
    let dark_trait_factor := 1 - (a.profile.1 + a.profile.2.1 + a.profile.2.2) / 3
    let effective_eta := eta * dark_trait_factor
    let xr := randFloat r
    if xr.1 < effective_eta then
      ({ a with state := AgState.E, toxic_messages := 0 }, xr.2)
    else
      let yr := randFloat xr.2
      if yr.1 < lambd then
        ({ a with state := AgState.Z, toxic_messages := 0 }, yr.2)
      else (a, yr.2)
  else (a, r)

/-- Modelled from the spec: `random.sample(nodes, k)` (external library
code) draws `k` distinct nodes uniformly; modelled as the prefix of a
Fisher-Yates shuffle. The `min` mirrors `min(self.n, len(nodes))` at the
call site. -/
def randSample (l : List Nat) (k : Nat) (r : Rng) : List Nat × Rng :=
  let sh := shuffle l r
  (sh.1.take (min k l.length), sh.2)

/-- `SEIZSMModel.send_messages` (seiz_sm.py lines 187-209): sample senders,
bump each sender's activity; an Infected sender whose toxicity reaches `T`
gains a toxic-message count, is recorded as a toxic sender and immediately
undergoes moderator intervention. Mutations hit the live store. -/
def send_messages (g : Graph) (nMsg : Nat) (T : Rat) (theta : Nat) (eta lambd : Rat)
    (store : Nat → AgentSM) (r : Rng) :
    List Nat × (Nat → AgentSM) × Rng :=
  let sample := randSample g.nodes nMsg r
  sample.1.foldl
    (fun (acc : List Nat × (Nat → AgentSM) × Rng) v =>
      let store := acc.2.1
      let a0 := store v
      let a := { a0 with activity_level := a0.activity_level + 1 }
      if a.state = AgState.I then
        let toxicity := compute_toxicity a
        if T ≤ toxicity then
          let a1 := { a with toxic_messages := a.toxic_messages + 1 }
          let mr := moderator_intervention theta eta lambd a1 acc.2.2
          (acc.1 ++ [v], updateA store v mr.1, mr.2)
        else (acc.1, updateA store v a, acc.2.2)
      else (acc.1, updateA store v a, acc.2.2))
    ([], store, sample.2)

/-- `SEIZSMModel.spread_toxicity` (seiz_sm.py lines 211-228): neighbors of
each toxic sender transition live: a Susceptible neighbor draws `beta` then
`p` for I-or-E, an Exposed neighbor draws `rho` for I. -/
def spread_toxicity (g : Graph) (beta rho p : Rat) (toxic : List Nat)
    (store : Nat → AgentSM) (r : Rng) : (Nat → AgentSM) × Rng :=
  toxic.foldl
    (fun acc sender =>
      (g.adj sender).foldl
        (fun (acc : (Nat → AgentSM) × Rng) nb =>
          let a := acc.1 nb
          if a.state = AgState.S then
            let xr := randFloat acc.2
            if xr.1 < beta then
              let yr := randFloat xr.2
              (updateA acc.1 nb
                { a with state := if yr.1 < p then AgState.I else AgState.E }, yr.2)
            else (acc.1, xr.2)
          else if a.state = AgState.E then
            let xr := randFloat acc.2
            if xr.1 < rho then (updateA acc.1 nb { a with state := AgState.I }, xr.2)
            else (acc.1, xr.2)
          else acc)
        acc)
    (store, r)

/-- `SEIZSMModel.internal_transitions` (seiz_sm.py lines 230-239): every
Exposed node draws `epsilon` for I, else `lambd` for Z, live. -/
def internal_transitions (g : Graph) (epsilon lambd : Rat)
    (store : Nat → AgentSM) (r : Rng) : (Nat → AgentSM) × Rng :=
  g.nodes.foldl
    (fun (acc : (Nat → AgentSM) × Rng) v =>
      let a := acc.1 v
      if a.state = AgState.E then
        let xr := randFloat acc.2
        if xr.1 < epsilon then (updateA acc.1 v { a with state := AgState.I }, xr.2)
        else
          let yr := randFloat xr.2
          if yr.1 < lambd then (updateA acc.1 v { a with state := AgState.Z }, yr.2)
          else (acc.1, yr.2)
      else acc)
    (store, r)

/-- `SEIZSMModel.step` (seiz_sm.py lines 241-245): message phase, spread
phase, internal phase, sequentially on the live store. -/
def smStep (g : Graph) (beta rho p epsilon : Rat) (nMsg : Nat) (theta : Nat)
    (T eta lambd : Rat) (store : Nat → AgentSM) (r : Rng) : (Nat → AgentSM) × Rng :=
  let sm := send_messages g nMsg T theta eta lambd store r
  let sp := spread_toxicity g beta rho p sm.1 sm.2.1 sm.2.2
  internal_transitions g epsilon lambd sp.1 sp.2

/-- `SEIZSMModel.initialize_states` (seiz_sm.py lines 120-154): like the
baseline initialization but the reset loop also redraws the three profile
traits and zeroes both counters, consuming three draws per node in shuffled
order. -/
def sm_initialize_states (g : Graph) (infected_frac skeptic_frac : Rat)
    (seed : Option Nat) (store0 : Nat → AgentSM) (rng : Rng) :
    Option ((Nat → AgentSM) × Rng) :=
  let rng1 := match seed with
    | some k => seedRng k
    | none => rng
  let sh := shuffle g.nodes rng1
  let nodes := sh.1
  let n := nodes.length
  let reset := nodes.foldl
    (fun (acc : (Nat → AgentSM) × Rng) v =>
      let p1 := randFloat acc.2
      let p2 := randFloat p1.2
      let p3 := randFloat p2.2
      (updateA acc.1 v
        { state := AgState.S, profile := (p1.1, p2.1, p3.1),
          toxic_messages := 0, activity_level := 0 }, p3.2))
    (store0, sh.2)
  let n_infected := (pyInt ((n : Rat) * infected_frac)).toNat
  let n_skeptic := (pyInt ((n : Rat) * skeptic_frac)).toNat
  let setSeg := fun (idxs : List Nat) (val : AgState) (store : Nat → AgentSM) =>
    idxs.foldlM
      (fun (store : Nat → AgentSM) i =>
        (nodes.get? i).map fun v => updateA store v { store v with state := val })
      store
  (setSeg (List.range n_infected) AgState.I reset.1).bind fun st2 =>
    (setSeg (List.range' n_infected n_skeptic) AgState.Z st2).map
      fun st3 => (st3, reset.2)

/-- The serialized record assembled by `BaseEpidemicModel.to_json` (base.py
lines 110-129): model type tag, parameter set, network size summary,
history. -/
structure ModelSummary where
  model_type : String
  parameters : List (String × Rat)
  num_nodes : Nat
  num_edges : Nat
  history : List (List (String × Nat))
deriving DecidableEq, Repr

/-- `BaseEpidemicModel.to_json` (base.py lines 110-129): assembles and
serializes the output record; the body performs no history check, so it
never fails. -/
def to_json (model_type : String) (parameters : List (String × Rat))
    (num_nodes num_edges : Nat) (history : List (List (String × Nat))) :
    Except String ModelSummary :=
  Except.ok
    { model_type := model_type, parameters := parameters,
      num_nodes := num_nodes, num_edges := num_edges, history := history }

/-- `BaseEpidemicModel.plot` (base.py lines 141-150): raises ValueError on
an empty history, otherwise renders (rendering is external and modelled as
success); `save_plot` (lines 175-212) performs the identical check. -/
def plot (history : List (List (String × Nat))) : Except String Unit :=
  if history.isEmpty then Except.error "No history to plot. Run the simulation first."
  else Except.ok ()

/-- `rate_to_prob` (seiz.py lines 17-19): the exponential-waiting-time
conversion of a continuous rate to a per-step probability. -/
noncomputable def rate_to_prob (rate dt : Real) : Real :=
  1 - Real.exp (-rate * dt)

/-- The four converted per-step probabilities computed by
`SEIZModel.__init__` (seiz.py lines 77-81): `prob_contact_I`,
`prob_contact_Z`, `prob_E_to_I`, `prob_I_to_E`. -/
noncomputable def baselineConvertedProbs (beta b rho eps dt : Real) :
    Real × Real × Real × Real :=
  (rate_to_prob beta dt, rate_to_prob b dt, rate_to_prob rho dt, rate_to_prob eps dt)

/-- The per-step probabilities stored by `SEIZBMModel.__init__` (seiz_bm.py
lines 85-92): the configured values, unconverted. -/
def bmStoredProbs (beta b rho p epsilon l mu m : Rat) :
    Rat × Rat × Rat × Rat × Rat × Rat × Rat × Rat :=
  (beta, b, rho, p, epsilon, l, mu, m)

/-! ### Counter and count_states lemmas -/

theorem lookup0_bump_self (c : List (String × Nat)) (k : String) :
    lookup0 (bump c k) k = lookup0 c k + 1 := by
  induction c with
  | nil => simp [bump, lookup0]
  | cons pr rest ih =>
    obtain ⟨a, n⟩ := pr
    by_cases hak : a = k
    · subst hak
      simp [bump, lookup0]
    · have hka : (k == a) = false := beq_eq_false_iff_ne.mpr fun h => hak h.symm
      simp [bump, hak, lookup0, List.lookup_cons, hka] at ih ⊢
      exact ih

theorem lookup0_bump_ne (c : List (String × Nat)) (k k' : String) (h : k' ≠ k) :
    lookup0 (bump c k) k' = lookup0 c k' := by
  induction c with
  | nil => simp [bump, lookup0, List.lookup_cons, beq_eq_false_iff_ne.mpr h]
  | cons pr rest ih =>
    obtain ⟨a, n⟩ := pr
    by_cases hak : a = k
    · subst hak
      simp [bump, lookup0, List.lookup_cons, beq_eq_false_iff_ne.mpr h]
    · by_cases h' : k' = a
      · subst h'
        simp [bump, hak, lookup0, List.lookup_cons]
      · have h'' : (k' == a) = false := beq_eq_false_iff_ne.mpr h'
        simp [bump, hak, lookup0, List.lookup_cons, h''] at ih ⊢
        exact ih

theorem count_foldl_bump (vals : List String) :
    ∀ (c : List (String × Nat)) (k : String),
      lookup0 (vals.foldl bump c) k = lookup0 c k + vals.count k := by
  induction vals with
  | nil => simp
  | cons v vs ih =>
    intro c k
    simp only [List.foldl_cons, ih, List.count_cons]
    by_cases h : k = v
    · subst h
      rw [lookup0_bump_self]
      simp
      omega
    · rw [lookup0_bump_ne _ _ _ h]
      have hkv : (k == v) = false := beq_eq_false_iff_ne.mpr h
      simp [hkv]
      exact fun hh => h hh.symm

theorem lookup0_tally (vals : List String) (k : String) :
    lookup0 (tally vals) k = vals.count k := by
  have := count_foldl_bump vals [] k
  simpa [tally, lookup0] using this

theorem stateName_count_partition (l : List AgState) :
    (l.map stateName).count "S" + (l.map stateName).count "E" +
      (l.map stateName).count "I" + (l.map stateName).count "Z" = l.length := by
  induction l with
  | nil => simp
  | cons a l ih => cases a <;> simp [stateName, List.count_cons, ih] <;> omega

theorem lookup0_ensureKey (c : List (String × Nat)) (k k' : String) :
    lookup0 (ensureKey c k) k' = lookup0 c k' := by
  unfold ensureKey
  split
  · rfl
  · unfold lookup0
    rw [List.lookup_append]
    cases hcl : c.lookup k' with
    | some v => simp
    | none =>
      simp only [Option.none_or]
      cases hkk : (k' == k) <;> simp [List.lookup_cons, hkk]

theorem ensureKey_isSome_self (c : List (String × Nat)) (k : String) :
    ((ensureKey c k).lookup k).isSome := by
  unfold ensureKey
  split
  · assumption
  · rename_i h
    rw [Option.not_isSome_iff_eq_none] at h
    simp [List.lookup_append, h]

theorem ensureKey_isSome_mono (c : List (String × Nat)) (k k' : String)
    (h : (c.lookup k').isSome) : ((ensureKey c k).lookup k').isSome := by
  unfold ensureKey
  split
  · exact h
  · rw [List.lookup_append]
    obtain ⟨v, hv⟩ := Option.isSome_iff_exists.mp h
    simp [hv]

/-- C1: for every model variant and every run, each `count_states` result
(hence every snapshot in a run's history) contains all four state keys S, E,
I, Z — zero-filled when no node is in a state — and their values sum to the
number of nodes of the graph. The statement is universal in the per-node
state assignment `st`, so it holds after `initialize_states` and is
preserved by every `step()` of every variant. -/
theorem count_states_conservation (nodes : List Nat) (st : Nat → AgState) :
    (((count_states nodes st).lookup "S").isSome ∧
      ((count_states nodes st).lookup "E").isSome ∧
      ((count_states nodes st).lookup "I").isSome ∧
      ((count_states nodes st).lookup "Z").isSome) ∧
    lookup0 (count_states nodes st) "S" + lookup0 (count_states nodes st) "E" +
      lookup0 (count_states nodes st) "I" + lookup0 (count_states nodes st) "Z" =
      nodes.length := by
  have hcs : count_states nodes st =
      ensureKey (ensureKey (ensureKey (ensureKey
        (tally (nodes.map fun v => stateName (st v))) "S") "E") "I") "Z" := rfl
  constructor
  · refine ⟨?_, ?_, ?_, ?_⟩ <;> rw [hcs]
    · exact ensureKey_isSome_mono _ _ _ (ensureKey_isSome_mono _ _ _
        (ensureKey_isSome_mono _ _ _ (ensureKey_isSome_self _ _)))
    · exact ensureKey_isSome_mono _ _ _ (ensureKey_isSome_mono _ _ _
        (ensureKey_isSome_self _ _))
    · exact ensureKey_isSome_mono _ _ _ (ensureKey_isSome_self _ _)
    · exact ensureKey_isSome_self _ _
  · rw [hcs]
    simp only [lookup0_ensureKey, lookup0_tally]
    have h := stateName_count_partition (nodes.map st)
    rw [List.map_map] at h
    simpa [Function.comp] using h

/-! ### run lemmas -/

theorem runGo_length {σ : Type} (nodes : List Nat) (view : σ → Nat → AgState)
    (stepFn : σ → σ) : ∀ (k : Nat) (s : σ) (i : Nat),
    (runGo nodes view stepFn k s i).length = k + 1 := by
  intro k
  induction k with
  | zero => intro s i; rfl
  | succ k ih => intro s i; simp [runGo, ih]

theorem mem_bump (c : List (String × Nat)) (k : String) (pr : String × Nat)
    (h : pr ∈ bump c k) : pr ∈ c ∨ pr.1 = k := by
  induction c with
  | nil =>
    simp [bump] at h
    subst h
    simp
  | cons q rest ih =>
    obtain ⟨a, n⟩ := q
    by_cases hak : a = k
    · subst hak
      simp [bump] at h
      rcases h with h | h
      · subst h; right; rfl
      · left; simp [h]
    · simp [bump, hak] at h
      rcases h with h | h
      · subst h; left; simp
      · rcases ih h with h' | h'
        · left; simp [h']
        · right; exact h'

theorem mem_foldl_bump (vals : List String) :
    ∀ (c : List (String × Nat)) (pr : String × Nat),
      pr ∈ vals.foldl bump c → pr ∈ c ∨ pr.1 ∈ vals := by
  induction vals with
  | nil => intro c pr h; left; simpa using h
  | cons v vs ih =>
    intro c pr h
    simp only [List.foldl_cons] at h
    rcases ih (bump c v) pr h with h' | h'
    · rcases mem_bump c v pr h' with h'' | h''
      · left; exact h''
      · right; simp [h'']
    · right; simp [h']

theorem mem_ensureKey (c : List (String × Nat)) (k : String) (pr : String × Nat)
    (h : pr ∈ ensureKey c k) : pr ∈ c ∨ pr.1 = k := by
  unfold ensureKey at h
  split at h
  · left; exact h
  · simp at h
    rcases h with h | h
    · left; exact h
    · subst h; right; rfl

theorem count_states_key_mem (nodes : List Nat) (st : Nat → AgState) :
    ∀ pr ∈ count_states nodes st,
      pr.1 = "S" ∨ pr.1 = "E" ∨ pr.1 = "I" ∨ pr.1 = "Z" := by
  intro pr hpr
  have hcs : count_states nodes st =
      ensureKey (ensureKey (ensureKey (ensureKey
        (tally (nodes.map fun v => stateName (st v))) "S") "E") "I") "Z" := rfl
  rw [hcs] at hpr
  rcases mem_ensureKey _ _ _ hpr with h | h
  · rcases mem_ensureKey _ _ _ h with h | h
    · rcases mem_ensureKey _ _ _ h with h | h
      · rcases mem_ensureKey _ _ _ h with h | h
        · rcases mem_foldl_bump _ _ _ h with h | h
          · simp at h
          · simp only [List.mem_map] at h
            obtain ⟨v, _, hv⟩ := h
            rw [← hv]
            cases st v
            · left; rfl
            · right; left; rfl
            · right; right; left; rfl
            · right; right; right; rfl
        · tauto
      · tauto
    · tauto
  · tauto

theorem lookup0_mkRecord_step (nodes : List Nat) (st : Nat → AgState) (i : Nat) :
    lookup0 (mkRecord nodes st i) "step" = i := by
  unfold mkRecord lookup0
  rw [List.lookup_append]
  have hnone : (count_states nodes st).lookup "step" = none := by
    rw [List.lookup_eq_none_iff]
    intro p hp
    rcases count_states_key_mem nodes st p hp with h | h | h | h <;> simp [h]
  simp [hnone, List.lookup_cons]

theorem runGo_map_step {σ : Type} (nodes : List Nat) (view : σ → Nat → AgState)
    (stepFn : σ → σ) : ∀ (k : Nat) (s : σ) (i : Nat),
    (runGo nodes view stepFn k s i).map (fun rec => lookup0 rec "step") =
      List.range' i (k + 1) := by
  intro k
  induction k with
  | zero => intro s i; simp [runGo, lookup0_mkRecord_step]
  | succ k ih =>
    intro s i
    rw [List.range'_succ]
    simp [runGo, lookup0_mkRecord_step, ih]

theorem runGo_getElem {σ : Type} (nodes : List Nat) (view : σ → Nat → AgState)
    (stepFn : σ → σ) : ∀ (k : Nat) (s : σ) (i j : Nat), j ≤ k →
    (runGo nodes view stepFn k s i)[j]? =
      some (mkRecord nodes (view (stepFn^[j] s)) (i + j)) := by
  intro k
  induction k with
  | zero =>
    intro s i j hj
    have hj0 : j = 0 := Nat.le_zero.mp hj
    subst hj0
    simp [runGo]
  | succ k ih =>
    intro s i j hj
    cases j with
    | zero => simp [runGo]
    | succ j =>
      have hj' : j ≤ k := Nat.succ_le_succ_iff.mp hj
      have := ih (stepFn s) (i + 1) j hj'
      simp only [runGo, List.getElem?_cons_succ, this]
      rw [Function.iterate_succ_apply]
      have harith : i + 1 + j = i + (j + 1) := by omega
      rw [harith]

/-- C2: for every k ≥ 0, `run(steps=k)` discards any previous history (the
result does not depend on it), returns exactly k+1 records whose `step`
fields are 0, 1, ..., k in order, each record's counts are those of the
state before that step's transition, and the final record is the state after
the last step. -/
theorem run_history_contract {σ : Type} (nodes : List Nat)
    (view : σ → Nat → AgState) (stepFn : σ → σ)
    (h1 h2 : List (List (String × Nat))) (k : Nat) (s : σ) :
    run nodes view stepFn h1 k s = run nodes view stepFn h2 k s ∧
    (run nodes view stepFn h1 k s).length = k + 1 ∧
    (run nodes view stepFn h1 k s).map (fun rec => lookup0 rec "step") =
      List.range (k + 1) ∧
    ∀ j, j ≤ k → (run nodes view stepFn h1 k s)[j]? =
      some (mkRecord nodes (view (stepFn^[j] s)) j) := by
  refine ⟨rfl, runGo_length nodes view stepFn k s 0, ?_, ?_⟩
  · rw [List.range_eq_range']
    exact runGo_map_step nodes view stepFn k s 0
  · intro j hj
    simpa using runGo_getElem nodes view stepFn k s 0 j hj

/-- Witness: `run_history_contract` applied to a one-node model run for one
step, reading record index 1. -/
theorem run_history_contract_witness :
    1 ≤ 1 ∧
    (run [0] (fun _ _ => AgState.S) id [[("S", 5)]] 1 (0 : Nat))[1]? =
      some (mkRecord [0] (fun _ => AgState.S) 1) :=
  ⟨Nat.le_refl 1,
    (run_history_contract [0] (fun _ _ => AgState.S) id [[("S", 5)]] [] 1
      (0 : Nat)).2.2.2 1 (Nat.le_refl 1)⟩

/-! ### Initialization, export and moderation claims -/

/-- C3: calling `initialize_states(f_i, f_z, seed=K)` on two
identically-constructed models (same graph, same fractions, same seed, same
prior stores) yields identical resulting state assignments, whatever the
prior generator states were, for both the baseline/basic-moderator
initialization and the smart-moderator initialization. -/
theorem initialize_seed_reproducible (g : Graph) (fi fz : Rat) (K : Nat)
    (st0 : Nat → AgState) (store0 : Nat → AgentSM) (r1 r2 : Rng) :
    initialize_states g fi fz (some K) st0 r1 =
      initialize_states g fi fz (some K) st0 r2 ∧
    sm_initialize_states g fi fz (some K) store0 r1 =
      sm_initialize_states g fi fz (some K) store0 r2 :=
  ⟨rfl, rfl⟩

/-- C5 counterexample: with 10 nodes and `infected_frac = skeptic_frac =
3/5` (sum 6/5 > 1), `initialize_states` does not complete: the skeptic
assignment loop indexes position 10 of a 10-element list and raises
IndexError (embedded as `none`). -/
theorem initialize_overfull_raises :
    initialize_states ⟨[0, 1, 2, 3, 4, 5, 6, 7, 8, 9], fun _ => []⟩ (3/5) (3/5)
      none (fun _ => AgState.S) ⟨fun _ => 0, fun _ => 0, 0⟩ = none := by
  rfl

/-- C6 counterexample: `to_json` invoked on a model that has never run
(empty history) succeeds, returning a serialization whose history field is
empty, instead of failing with a "no history" error. -/
theorem to_json_empty_history_succeeds :
    to_json "SEIZModel" [("beta", 3/10)] 50 100 [] =
      Except.ok ⟨"SEIZModel", [("beta", 3/10)], 50, 100, []⟩ := rfl

/-- C6 amended: before any run (empty history) the plot operations fail
with the distinguishable ValueError "No history to plot. Run the simulation
first.", while `to_json` (and hence `save_json`) performs no history check
and succeeds, producing a record whose history is empty. -/
theorem export_plot_empty_history (mt : String) (ps : List (String × Rat))
    (nn ne : Nat) (hist : List (List (String × Nat))) (h : hist = []) :
    plot hist = Except.error "No history to plot. Run the simulation first." ∧
    to_json mt ps nn ne hist = Except.ok ⟨mt, ps, nn, ne, []⟩ := by
  subst h
  exact ⟨rfl, rfl⟩

/-- Witness: `export_plot_empty_history` at a concrete fresh model. -/
theorem export_plot_empty_history_witness :
    ([] : List (List (String × Nat))) = [] ∧
    (plot [] = Except.error "No history to plot. Run the simulation first." ∧
      to_json "SEIZBMModel" [("mu", 1/10)] 5 4 [] =
        Except.ok ⟨"SEIZBMModel", [("mu", 1/10)], 5, 4, []⟩) :=
  ⟨rfl, export_plot_empty_history "SEIZBMModel" [("mu", 1/10)] 5 4 [] rfl⟩

/-- C8: `rate_to_prob(rate, dt)` returns exactly `1 - exp(-rate*dt)`, which
lies in [0, 1) for every rate ≥ 0 and dt > 0; the baseline constructor
applies this conversion to beta, b, rho and eps, while the basic-moderator
constructor stores its configured values unconverted. -/
theorem rate_to_prob_contract (beta b rho eps dt : Real) :
    (∀ rate : Real, 0 ≤ rate → 0 < dt →
      rate_to_prob rate dt = 1 - Real.exp (-(rate * dt)) ∧
      0 ≤ rate_to_prob rate dt ∧ rate_to_prob rate dt < 1) ∧
    baselineConvertedProbs beta b rho eps dt =
      (rate_to_prob beta dt, rate_to_prob b dt,
        rate_to_prob rho dt, rate_to_prob eps dt) ∧
    ∀ qbeta qb qrho qp qeps ql qmu qm : Rat,
      bmStoredProbs qbeta qb qrho qp qeps ql qmu qm =
        (qbeta, qb, qrho, qp, qeps, ql, qmu, qm) := by
  refine ⟨?_, rfl, fun _ _ _ _ _ _ _ _ => rfl⟩
  intro rate hr hdt
  refine ⟨by rw [rate_to_prob, neg_mul], ?_, ?_⟩
  · unfold rate_to_prob
    have hle : Real.exp (-rate * dt) ≤ 1 := by
      rw [Real.exp_le_one_iff]
      nlinarith
    linarith
  · unfold rate_to_prob
    have hpos : 0 < Real.exp (-rate * dt) := Real.exp_pos _
    linarith

/-- Witness: `rate_to_prob_contract` at rate 1, dt 1. -/
theorem rate_to_prob_contract_witness :
    (0 : Real) ≤ 1 ∧ (0 : Real) < 1 ∧
    (rate_to_prob 1 1 = 1 - Real.exp (-(1 * 1)) ∧
      0 ≤ rate_to_prob 1 1 ∧ rate_to_prob 1 1 < 1) :=
  ⟨zero_le_one, zero_lt_one,
    (rate_to_prob_contract 0 0 0 0 1).1 1 zero_le_one zero_lt_one⟩

/-- C9: `moderator_intervention` on an agent whose toxic-message counter is
at least theta computes `effective_eta = eta * (1 - toxicity)`; if the first
draw is below `effective_eta` the agent becomes Exposed with counter reset;
otherwise a second, independent draw below `lambd` makes it Skeptic with
counter reset; otherwise it is unchanged (two generator positions
consumed). An agent below the threshold is left unchanged (no draw). -/
theorem moderator_intervention_behavior (theta : Nat) (eta lambd : Rat)
    (a : AgentSM) (r : Rng) :
    (a.toxic_messages < theta →
      moderator_intervention theta eta lambd a r = (a, r)) ∧
    (theta ≤ a.toxic_messages →
      ((randFloat r).1 < eta * (1 - compute_toxicity a) →
        moderator_intervention theta eta lambd a r =
          ({ a with state := AgState.E, toxic_messages := 0 }, (randFloat r).2)) ∧
      (¬ (randFloat r).1 < eta * (1 - compute_toxicity a) →
        ((randFloat (randFloat r).2).1 < lambd →
          moderator_intervention theta eta lambd a r =
            ({ a with state := AgState.Z, toxic_messages := 0 },
              (randFloat (randFloat r).2).2)) ∧
        (¬ (randFloat (randFloat r).2).1 < lambd →
          moderator_intervention theta eta lambd a r =
            (a, (randFloat (randFloat r).2).2)))) := by
  constructor
  · intro h
    have h' : ¬ theta ≤ a.toxic_messages := by omega
    simp [moderator_intervention, h']
  · intro h
    constructor
    · intro hx
      simp only [compute_toxicity] at hx
      simp [moderator_intervention, h, hx]
    · intro hx
      simp only [compute_toxicity] at hx
      constructor
      · intro hy
        simp [moderator_intervention, h, hx, hy]
      · intro hy
        simp [moderator_intervention, h, hx, hy]

/-- Witness: `moderator_intervention_behavior` on a zero-toxicity agent at
the threshold, whose first draw misses `effective_eta` and whose second
draw hits `lambd`, transitioning it to Skeptic. -/
theorem moderator_intervention_behavior_witness :
    1 ≤ 1 ∧
    ¬ (3 : Rat) / 4 < 1 / 2 * (1 - 0) ∧
    (0 : Rat) < 1 ∧
    moderator_intervention 1 (1/2) 1
        ⟨AgState.I, (0, 0, 0), 1, 0⟩
        ⟨fun i => if i = 0 then 3/4 else 0, fun _ => 0, 0⟩ =
      (⟨AgState.Z, (0, 0, 0), 0, 0⟩,
        ⟨fun i => if i = 0 then 3/4 else 0, fun _ => 0, 2⟩) :=
  ⟨Nat.le_refl 1, by norm_num, by norm_num,
    (((moderator_intervention_behavior 1 (1/2) 1
        ⟨AgState.I, (0, 0, 0), 1, 0⟩
        ⟨fun i => if i = 0 then 3/4 else 0, fun _ => 0, 0⟩).2
      (by decide)).2 (by norm_num [randFloat, compute_toxicity])).1
      (by norm_num [randFloat])⟩

/-! ### Shuffle and assignment lemmas -/

theorem swapL_perm (l : List Nat) (i j : Nat) : (swapL l i j).Perm l := by
  unfold swapL
  cases hi : l.get? i with
  | none => exact List.Perm.refl l
  | some a =>
    cases hj : l.get? j with
    | none => exact List.Perm.refl l
    | some b =>
      obtain ⟨hi', ha⟩ := List.get?_eq_some.mp hi
      obtain ⟨hj', hb⟩ := List.get?_eq_some.mp hj
      have hax : l[i] = a := by simpa [List.get_eq_getElem] using ha
      have hbx : l[j] = b := by simpa [List.get_eq_getElem] using hb
      show ((l.set i b).set j a).Perm l
      rw [List.perm_iff_count]
      intro x
      have hj'' : j < (l.set i b).length := by simpa using hj'
      have e1 := List.count_set a x (l.set i b) j hj''
      have e2 := List.count_set b x l i hi'
      have hbj : (l.set i b)[j] = b := by
        by_cases hij : i = j
        · subst hij
          simp
        · rw [List.getElem_set_ne hij]
          exact hbx
      rw [hbj] at e1
      rw [hax] at e2
      have hcnt : (if (a == x) then 1 else 0) ≤ l.count x := by
        by_cases hax' : a = x
        · subst hax'
          have : a ∈ l := by
            rw [← hax]
            exact List.getElem_mem hi'
          simpa using List.count_pos_iff.mpr this
        · simp [hax']
      rw [e1, e2]
      by_cases hh1 : a = x <;> by_cases hh2 : b = x <;>
        simp [hh1, hh2] at hcnt ⊢ <;>
        · have hpos := List.count_pos_iff.mpr hcnt
          omega

theorem shuffleGo_perm : ∀ (fuel : Nat) (l : List Nat) (r : Rng),
    ((shuffleGo l r fuel).1).Perm l := by
  intro fuel
  induction fuel with
  | zero => intro l r; exact List.Perm.refl l
  | succ k ih =>
    intro l r
    exact (ih _ _).trans (swapL_perm _ _ _)

theorem shuffle_perm (l : List Nat) (r : Rng) : ((shuffle l r).1).Perm l :=
  shuffleGo_perm _ _ _

theorem shuffle_length (l : List Nat) (r : Rng) :
    (shuffle l r).1.length = l.length :=
  (shuffle_perm l r).length_eq

theorem assignSeg_isSome (nodes : List Nat) (val : AgState) :
    ∀ (idxs : List Nat) (st : Nat → AgState),
      (assignSeg nodes val idxs st).isSome ↔ ∀ i ∈ idxs, i < nodes.length := by
  intro idxs
  induction idxs with
  | nil => intro st; simp [assignSeg]
  | cons i rest ih =>
    intro st
    cases hg : nodes.get? i with
    | none =>
      have hlen : nodes.length ≤ i := List.get?_eq_none.mp hg
      simp only [assignSeg, hg]
      simp only [Option.isSome_none, Bool.false_eq_true, false_iff]
      intro h
      exact absurd (h i (List.mem_cons_self i rest)) (by omega)
    | some v =>
      have hlt : i < nodes.length := by
        by_contra hge
        rw [List.get?_eq_none.mpr (by omega)] at hg
        cases hg
      simp only [assignSeg, hg]
      rw [ih, List.forall_mem_cons]
      simp [hlt]

theorem initialize_success_iff_aux (g : Graph) (fi fz : Rat)
    (st0 : Nat → AgState) (rng : Rng) (h0 : 0 ≤ fi) (h1 : fi ≤ 1) (h2 : 0 ≤ fz) :
    (initialize_states g fi fz none st0 rng).isSome ↔
      (pyInt ((g.nodes.length : Rat) * fi)).toNat +
        (pyInt ((g.nodes.length : Rat) * fz)).toNat ≤ g.nodes.length := by
  simp only [initialize_states]
  generalize hns : (shuffle g.nodes rng).1 = ns
  have hlen : ns.length = g.nodes.length := by
    rw [← hns]
    exact shuffle_length g.nodes rng
  rw [← hlen]
  have hInfLe : (pyInt ((ns.length : Rat) * fi)).toNat ≤ ns.length := by
    unfold pyInt
    rw [if_pos (by positivity)]
    have hle : ((ns.length : Rat) * fi) ≤ (ns.length : Rat) := by
      calc (ns.length : Rat) * fi ≤ (ns.length : Rat) * 1 :=
            mul_le_mul_of_nonneg_left h1 (by positivity)
        _ = (ns.length : Rat) := mul_one _
    have hf := Int.floor_mono hle
    rw [Int.floor_natCast] at hf
    omega
  have h1s : (assignSeg ns AgState.I
      (List.range (pyInt ((ns.length : Rat) * fi)).toNat)
      (List.foldl (fun st v => update st v AgState.S) st0 ns)).isSome :=
    (assignSeg_isSome ns AgState.I _ _).mpr
      (fun i hi => by rw [List.mem_range] at hi; omega)
  obtain ⟨st2, hst2⟩ := Option.isSome_iff_exists.mp h1s
  rw [hst2]
  simp only [Option.some_bind, Option.isSome_map']
  rw [assignSeg_isSome]
  constructor
  · intro hall
    by_cases hz : (pyInt ((ns.length : Rat) * fz)).toNat = 0
    · omega
    · have := hall ((pyInt ((ns.length : Rat) * fi)).toNat +
          (pyInt ((ns.length : Rat) * fz)).toNat - 1)
        (by rw [List.mem_range'_1]; omega)
      omega
  · intro hle i hi
    rw [List.mem_range'_1] at hi
    omega

/-- C5 amended: for 0 ≤ infected_frac ≤ 1 and 0 ≤ skeptic_frac,
`initialize_states` completes without raising exactly when
`int(n*infected_frac) + int(n*skeptic_frac) ≤ n`; when the truncated counts
overshoot the population, the skeptic assignment loop raises IndexError
instead of silently running past the available nodes. -/
theorem initialize_success_iff (g : Graph) (fi fz : Rat) (seed : Option Nat)
    (st0 : Nat → AgState) (rng : Rng) (h0 : 0 ≤ fi) (h1 : fi ≤ 1) (h2 : 0 ≤ fz) :
    (initialize_states g fi fz seed st0 rng).isSome ↔
      (pyInt ((g.nodes.length : Rat) * fi)).toNat +
        (pyInt ((g.nodes.length : Rat) * fz)).toNat ≤ g.nodes.length := by
  cases seed with
  | none => exact initialize_success_iff_aux g fi fz st0 rng h0 h1 h2
  | some K => exact initialize_success_iff_aux g fi fz st0 (seedRng K) h0 h1 h2

/-- Witness: `initialize_success_iff` on 10 nodes with both fractions 1/2:
the truncated counts 5 + 5 fit and initialization succeeds. -/
theorem initialize_success_iff_witness :
    (0 : Rat) ≤ 1/2 ∧ (1 : Rat)/2 ≤ 1 ∧
    ((initialize_states ⟨[0, 1, 2, 3, 4, 5, 6, 7, 8, 9], fun _ => []⟩ (1/2) (1/2)
        none (fun _ => AgState.S) ⟨fun _ => 0, fun _ => 0, 0⟩).isSome ↔
      (pyInt ((10 : Nat) * (1/2 : Rat))).toNat +
        (pyInt ((10 : Nat) * (1/2 : Rat))).toNat ≤ 10) :=
  ⟨by norm_num, by norm_num,
    initialize_success_iff ⟨[0, 1, 2, 3, 4, 5, 6, 7, 8, 9], fun _ => []⟩
      (1/2) (1/2) none (fun _ => AgState.S) ⟨fun _ => 0, fun _ => 0, 0⟩
      (by norm_num) (by norm_num) (by norm_num)⟩

/-! ### Fraction-accuracy lemmas -/

theorem shuffle_nodup (l : List Nat) (r : Rng) (h : l.Nodup) :
    (shuffle l r).1.Nodup :=
  ((shuffle_perm l r).nodup_iff).mpr h

theorem assignSeg_eq_foldl (nodes : List Nat) (val : AgState) :
    ∀ (idxs : List Nat) (st : Nat → AgState), (∀ i ∈ idxs, i < nodes.length) →
      assignSeg nodes val idxs st =
        some ((idxs.filterMap nodes.get?).foldl (fun st v => update st v val) st) := by
  intro idxs
  induction idxs with
  | nil => intro st _; simp [assignSeg]
  | cons i rest ih =>
    intro st h
    have hi : i < nodes.length := h i (List.mem_cons_self i rest)
    have hg : nodes.get? i = some (nodes.get ⟨i, hi⟩) := List.get?_eq_get hi
    simp only [assignSeg, hg, List.filterMap_cons, List.foldl_cons]
    exact ih _ (fun j hj => h j (List.mem_cons_of_mem i hj))

theorem foldl_update_eq (val : AgState) :
    ∀ (seg : List Nat) (st : Nat → AgState) (u : Nat),
      (seg.foldl (fun st v => update st v val) st) u =
        if u ∈ seg then val else st u := by
  intro seg
  induction seg with
  | nil => intro st u; simp
  | cons v rest ih =>
    intro st u
    rw [List.foldl_cons, ih]
    by_cases hu : u ∈ rest
    · simp [hu]
    · by_cases huv : u = v
      · simp [huv, hu, update]
      · simp [huv, hu, update]

theorem filterMap_get?_range (nodes : List Nat) :
    ∀ (m : Nat), m ≤ nodes.length →
      (List.range m).filterMap nodes.get? = nodes.take m := by
  intro m
  induction m with
  | zero => intro _; simp
  | succ m ih =>
    intro h
    have hlt : m < nodes.length := by omega
    have hg : nodes.get? m = some (nodes.get ⟨m, hlt⟩) := List.get?_eq_get hlt
    have hg2 : nodes[m]? = some (nodes.get ⟨m, hlt⟩) := by
      rw [← List.get?_eq_getElem?]
      exact hg
    rw [List.range_succ, List.filterMap_append, ih (by omega), List.take_succ]
    simp [hg, hg2]

theorem filterMap_get?_range' (nodes : List Nat) :
    ∀ (k a : Nat), a + k ≤ nodes.length →
      (List.range' a k).filterMap nodes.get? = (nodes.drop a).take k := by
  intro k
  induction k with
  | zero => intro a _; simp
  | succ k ih =>
    intro a h
    have hlt : a < nodes.length := by omega
    have hg : nodes.get? a = some (nodes.get ⟨a, hlt⟩) := List.get?_eq_get hlt
    rw [List.range'_succ, List.filterMap_cons]
    simp only [hg]
    rw [ih (a + 1) (by omega), List.drop_eq_getElem_cons hlt, List.take_succ_cons]
    simp [List.get_eq_getElem]

theorem assign_count (ns nodes : List Nat) (st0 : Nat → AgState)
    (hperm : ns.Perm nodes) (hnd : ns.Nodup) (nInf nSkep : Nat)
    (st2 st3 : Nat → AgState)
    (h1 : assignSeg ns AgState.I (List.range nInf)
        (List.foldl (fun st v => update st v AgState.S) st0 ns) = some st2)
    (h2 : assignSeg ns AgState.Z (List.range' nInf nSkep) st2 = some st3) :
    (nodes.map st3).count AgState.I = nInf := by
  have hA1 : ∀ i ∈ List.range nInf, i < ns.length := by
    refine (assignSeg_isSome ns AgState.I (List.range nInf)
      (List.foldl (fun st v => update st v AgState.S) st0 ns)).mp ?_
    rw [h1]; rfl
  have hA2 : ∀ i ∈ List.range' nInf nSkep, i < ns.length := by
    refine (assignSeg_isSome ns AgState.Z (List.range' nInf nSkep) st2).mp ?_
    rw [h2]; rfl
  have hInfLe : nInf ≤ ns.length := by
    by_cases hz : nInf = 0
    · omega
    · have := hA1 (nInf - 1) (by rw [List.mem_range]; omega)
      omega
  have hTot : nInf + nSkep ≤ ns.length := by
    by_cases hz : nSkep = 0
    · omega
    · have := hA2 (nInf + nSkep - 1) (by rw [List.mem_range'_1]; omega)
      omega
  rw [assignSeg_eq_foldl ns AgState.I _ _ hA1,
    filterMap_get?_range ns nInf hInfLe] at h1
  rw [assignSeg_eq_foldl ns AgState.Z _ _ hA2,
    filterMap_get?_range' ns nSkep nInf hTot] at h2
  have hst2 : st2 = (ns.take nInf).foldl (fun st v => update st v AgState.I)
      (List.foldl (fun st v => update st v AgState.S) st0 ns) :=
    (Option.some_inj.mp h1).symm
  have hst3 : st3 = ((ns.drop nInf).take nSkep).foldl
      (fun st v => update st v AgState.Z) st2 :=
    (Option.some_inj.mp h2).symm
  have hpt : ∀ u, st3 u =
      if u ∈ (ns.drop nInf).take nSkep then AgState.Z
      else if u ∈ ns.take nInf then AgState.I
      else if u ∈ ns then AgState.S else st0 u := by
    intro u
    rw [hst3, foldl_update_eq]
    by_cases hz : u ∈ (ns.drop nInf).take nSkep
    · simp [hz]
    · simp only [hz, if_false]
      rw [hst2, foldl_update_eq]
      by_cases hi : u ∈ ns.take nInf
      · simp [hi]
      · simp only [hi, if_false]
        rw [foldl_update_eq]
  have hd1 : List.Disjoint (ns.take nInf) (ns.drop nInf) :=
    List.disjoint_take_drop hnd (Nat.le_refl nInf)
  have hndDrop : (ns.drop nInf).Nodup := (List.drop_sublist nInf ns).nodup hnd
  have hd2 : List.Disjoint ((ns.drop nInf).take nSkep) ((ns.drop nInf).drop nSkep) :=
    List.disjoint_take_drop hndDrop (Nat.le_refl nSkep)
  have hcnt : (nodes.map st3).count AgState.I = (ns.map st3).count AgState.I :=
    ((hperm.map st3).count_eq _).symm
  rw [hcnt]
  have hsplit : ns = ns.take nInf ++
      ((ns.drop nInf).take nSkep ++ (ns.drop nInf).drop nSkep) := by
    rw [List.take_append_drop, List.take_append_drop]
  conv_lhs => rw [hsplit]
  rw [List.map_append, List.map_append, List.count_append, List.count_append]
  have c1 : ((ns.take nInf).map st3).count AgState.I = nInf := by
    have hall : ∀ b ∈ (ns.take nInf).map st3, AgState.I = b := by
      intro b hb
      rw [List.mem_map] at hb
      obtain ⟨u, hu, hub⟩ := hb
      have hu2 : u ∉ (ns.drop nInf).take nSkep := by
        intro hmem
        exact hd1 hu (List.take_subset _ _ hmem)
      rw [hpt u, if_neg hu2, if_pos hu] at hub
      exact hub
    rw [List.count_eq_length.mpr hall, List.length_map, List.length_take]
    omega
  have c2 : (((ns.drop nInf).take nSkep).map st3).count AgState.I = 0 := by
    rw [List.count_eq_zero]
    intro hmem
    rw [List.mem_map] at hmem
    obtain ⟨u, hu, hub⟩ := hmem
    rw [hpt u, if_pos hu] at hub
    cases hub
  have c3 : (((ns.drop nInf).drop nSkep).map st3).count AgState.I = 0 := by
    rw [List.count_eq_zero]
    intro hmem
    rw [List.mem_map] at hmem
    obtain ⟨u, hu, hub⟩ := hmem
    have huDrop : u ∈ ns.drop nInf := List.drop_subset _ _ hu
    have hu1 : u ∉ (ns.drop nInf).take nSkep := fun hmem2 => hd2 hmem2 hu
    have hu3 : u ∉ ns.take nInf := fun hmem3 => hd1 hmem3 huDrop
    have hu4 : u ∈ ns := List.drop_subset _ _ huDrop
    rw [hpt u, if_neg hu1, if_neg hu3, if_pos hu4] at hub
    cases hub
  omega

theorem initialize_infected_floor_aux (g : Graph) (fi fz : Rat)
    (st0 : Nat → AgState) (rng : Rng) (m : Nat)
    (hnd : g.nodes.Nodup) (h0 : 0 ≤ fi)
    (hm : (initialize_states g fi fz none st0 rng).map
        (fun pr => (g.nodes.map pr.1).count AgState.I) = some m) :
    (m : Int) = ⌊(g.nodes.length : Rat) * fi⌋ := by
  simp only [initialize_states] at hm
  cases hfst : assignSeg (shuffle g.nodes rng).1 AgState.I
      (List.range (pyInt (((shuffle g.nodes rng).1.length : Rat) * fi)).toNat)
      (List.foldl (fun st v => update st v AgState.S) st0 (shuffle g.nodes rng).1) with
  | none =>
    rw [hfst] at hm
    simp at hm
  | some st2 =>
    rw [hfst] at hm
    simp only [Option.some_bind] at hm
    cases hsnd : assignSeg (shuffle g.nodes rng).1 AgState.Z
        (List.range' (pyInt (((shuffle g.nodes rng).1.length : Rat) * fi)).toNat
          (pyInt (((shuffle g.nodes rng).1.length : Rat) * fz)).toNat) st2 with
    | none =>
      rw [hsnd] at hm
      simp at hm
    | some st3 =>
      rw [hsnd] at hm
      simp only [Option.map_some'] at hm
      have hmv : (g.nodes.map st3).count AgState.I = m := by
        simpa using hm
      have hcount := assign_count (shuffle g.nodes rng).1 g.nodes st0
        (shuffle_perm g.nodes rng) (shuffle_nodup g.nodes rng hnd) _ _ st2 st3
        hfst hsnd
      have hlen := shuffle_length g.nodes rng
      have hmn : m = (pyInt ((g.nodes.length : Rat) * fi)).toNat := by
        rw [← hmv, hcount, hlen]
      rw [hmn]
      unfold pyInt
      rw [if_pos (by positivity)]
      have hnn : 0 ≤ ⌊(g.nodes.length : Rat) * fi⌋ :=
        Int.floor_nonneg.mpr (by positivity)
      omega

/-- C4: for population n and `infected_frac = p ≥ 0` (with distinct graph
nodes), whenever `initialize_states` completes, the number of Infected nodes
equals exactly ⌊n·p⌋ — Python's `int` truncation coincides with the floor
for nonnegative products, p = 0 gives 0 infected, and non-integer n·p is
floored, never rounded. -/
theorem initialize_infected_floor (g : Graph) (fi fz : Rat) (seed : Option Nat)
    (st0 : Nat → AgState) (rng : Rng) (m : Nat)
    (hnd : g.nodes.Nodup) (h0 : 0 ≤ fi)
    (hm : (initialize_states g fi fz seed st0 rng).map
        (fun pr => (g.nodes.map pr.1).count AgState.I) = some m) :
    (m : Int) = ⌊(g.nodes.length : Rat) * fi⌋ := by
  cases seed with
  | none => exact initialize_infected_floor_aux g fi fz st0 rng m hnd h0 hm
  | some K => exact initialize_infected_floor_aux g fi fz st0 (seedRng K) m hnd h0 hm

/-- Witness: `initialize_infected_floor` on 5 distinct nodes with
infected_frac 1/2: the infected count is 2 = ⌊5·(1/2)⌋. -/
theorem initialize_infected_floor_witness :
    ([0, 1, 2, 3, 4] : List Nat).Nodup ∧ (0 : Rat) ≤ 1/2 ∧
    ((initialize_states ⟨[0, 1, 2, 3, 4], fun _ => []⟩ (1/2) 0 none
        (fun _ => AgState.S) ⟨fun _ => 0, fun _ => 0, 0⟩).map
      (fun pr => (([0, 1, 2, 3, 4] : List Nat).map pr.1).count AgState.I) =
        some 2) ∧
    ((2 : Nat) : Int) = ⌊((5 : Nat) : Rat) * (1/2)⌋ :=
  ⟨by decide, by norm_num, by decide,
    initialize_infected_floor ⟨[0, 1, 2, 3, 4], fun _ => []⟩ (1/2) 0 none
      (fun _ => AgState.S) ⟨fun _ => 0, fun _ => 0, 0⟩ 2
      (by decide) (by norm_num) (by decide)⟩

/-! ### Baseline proposal lemmas -/

theorem foldl_preserve {α β : Type} (P : α → Prop) (f : α → β → α) :
    ∀ (l : List β) (a : α), P a → (∀ a b, P a → P (f a b)) → P (l.foldl f a) := by
  intro l
  induction l with
  | nil => intro a h _; exact h
  | cons b rest ih => intro a h hstep; exact ih (f a b) (hstep a b h) hstep

theorem addProposal_fst (ps : List (Nat × List AgState)) (v : Nat) (s : AgState) :
    (addProposal ps v s).map Prod.fst =
      if v ∈ ps.map Prod.fst then ps.map Prod.fst else ps.map Prod.fst ++ [v] := by
  induction ps with
  | nil => simp [addProposal]
  | cons pr rest ih =>
    obtain ⟨u, l⟩ := pr
    by_cases huv : u = v
    · subst huv
      simp [addProposal]
    · have hvu : ¬ v = u := fun h => huv h.symm
      by_cases hv : v ∈ rest.map Prod.fst
      · simp [addProposal, huv, ih, hv, List.mem_cons, hvu]
      · simp [addProposal, huv, ih, hv, List.mem_cons, hvu]

theorem addProposal_keys_nodup (ps : List (Nat × List AgState)) (v : Nat)
    (s : AgState) (h : (ps.map Prod.fst).Nodup) :
    ((addProposal ps v s).map Prod.fst).Nodup := by
  rw [addProposal_fst]
  split
  · exact h
  · rename_i hv
    simp [List.nodup_append, h, hv]

theorem addProposal_mem (ps : List (Nat × List AgState)) (v : Nat) (s : AgState) :
    ∀ pr ∈ addProposal ps v s, pr ∈ ps ∨ pr.1 = v := by
  induction ps with
  | nil =>
    intro pr hpr
    simp [addProposal] at hpr
    right
    rw [hpr]
  | cons q rest ih =>
    obtain ⟨u, l⟩ := q
    intro pr hpr
    by_cases huv : u = v
    · subst huv
      simp only [addProposal, if_pos rfl] at hpr
      rcases List.mem_cons.mp hpr with h | h
      · right; rw [h]
      · left; exact List.mem_cons_of_mem _ h
    · simp only [addProposal, if_neg huv] at hpr
      rcases List.mem_cons.mp hpr with h | h
      · left; rw [h]; exact List.mem_cons_self _ _
      · rcases ih pr h with h' | h'
        · left; exact List.mem_cons_of_mem _ h'
        · right; exact h'

theorem addProposal_vals (ps : List (Nat × List AgState)) (v : Nat) (s : AgState)
    (h : ∀ pr ∈ ps, pr.2 ≠ []) : ∀ pr ∈ addProposal ps v s, pr.2 ≠ [] := by
  induction ps with
  | nil =>
    intro pr hpr
    simp [addProposal] at hpr
    rw [hpr]
    simp
  | cons q rest ih =>
    obtain ⟨u, l⟩ := q
    intro pr hpr
    by_cases huv : u = v
    · subst huv
      simp only [addProposal, if_pos rfl] at hpr
      rcases List.mem_cons.mp hpr with h' | h'
      · rw [h']
        simp
      · exact h pr (List.mem_cons_of_mem _ h')
    · simp only [addProposal, if_neg huv] at hpr
      rcases List.mem_cons.mp hpr with h' | h'
      · rw [h']
        exact h (u, l) (List.mem_cons_self _ _)
      · exact ih (fun q hq => h q (List.mem_cons_of_mem _ hq)) pr h'

theorem addProposal_good (st : Nat → AgState) (ps : List (Nat × List AgState))
    (v : Nat) (s : AgState)
    (h : (ps.map Prod.fst).Nodup ∧ ∀ pr ∈ ps, pr.2 ≠ [] ∧ st pr.1 ≠ AgState.Z)
    (hv : st v ≠ AgState.Z) :
    ((addProposal ps v s).map Prod.fst).Nodup ∧
      ∀ pr ∈ addProposal ps v s, pr.2 ≠ [] ∧ st pr.1 ≠ AgState.Z := by
  refine ⟨addProposal_keys_nodup ps v s h.1, ?_⟩
  intro pr hpr
  refine ⟨addProposal_vals ps v s (fun q hq => (h.2 q hq).1) pr hpr, ?_⟩
  rcases addProposal_mem ps v s pr hpr with hin | heq
  · exact (h.2 pr hin).2
  · rw [heq]
    exact hv

theorem infectNeighbors_good (st : Nat → AgState) (probI p : Rat) :
    ∀ (nbs : List Nat) (acc : List (Nat × List AgState) × Rng),
      ((acc.1.map Prod.fst).Nodup ∧ ∀ pr ∈ acc.1, pr.2 ≠ [] ∧ st pr.1 ≠ AgState.Z) →
      (((infectNeighbors st nbs probI p acc).1.map Prod.fst).Nodup ∧
        ∀ pr ∈ (infectNeighbors st nbs probI p acc).1,
          pr.2 ≠ [] ∧ st pr.1 ≠ AgState.Z) := by
  intro nbs
  induction nbs with
  | nil => intro acc h; exact h
  | cons nb rest ih =>
    intro acc h
    simp only [infectNeighbors, List.foldl_cons]
    refine ih _ ?_
    by_cases hnb : st nb = AgState.S
    · by_cases hx : (randFloat acc.2).1 < probI
      · simp only [hnb, if_pos rfl, hx, if_true]
        exact addProposal_good st acc.1 nb _ h (by rw [hnb]; intro hc; cases hc)
      · simp only [hnb, if_pos rfl, hx, if_false]
        exact h
    · simp only [hnb, if_neg hnb]
      exact h

theorem skepticNeighbors_good (st : Nat → AgState) (probZ l : Rat) :
    ∀ (nbs : List Nat) (acc : List (Nat × List AgState) × Rng),
      ((acc.1.map Prod.fst).Nodup ∧ ∀ pr ∈ acc.1, pr.2 ≠ [] ∧ st pr.1 ≠ AgState.Z) →
      (((skepticNeighbors st nbs probZ l acc).1.map Prod.fst).Nodup ∧
        ∀ pr ∈ (skepticNeighbors st nbs probZ l acc).1,
          pr.2 ≠ [] ∧ st pr.1 ≠ AgState.Z) := by
  intro nbs
  induction nbs with
  | nil => intro acc h; exact h
  | cons nb rest ih =>
    intro acc h
    simp only [skepticNeighbors, List.foldl_cons]
    refine ih _ ?_
    by_cases hnb : st nb = AgState.S
    · by_cases hx : (randFloat acc.2).1 < probZ
      · simp only [hnb, if_pos rfl, hx, if_true]
        exact addProposal_good st acc.1 nb _ h (by rw [hnb]; intro hc; cases hc)
      · simp only [hnb, if_pos rfl, hx, if_false]
        exact h
    · simp only [hnb, if_neg hnb]
      exact h

theorem contactPhase_good (g : Graph) (st : Nat → AgState) (probI probZ p l : Rat)
    (acc : List (Nat × List AgState) × Rng)
    (h : (acc.1.map Prod.fst).Nodup ∧ ∀ pr ∈ acc.1, pr.2 ≠ [] ∧ st pr.1 ≠ AgState.Z) :
    (((contactPhase g st probI probZ p l acc).1.map Prod.fst).Nodup ∧
      ∀ pr ∈ (contactPhase g st probI probZ p l acc).1,
        pr.2 ≠ [] ∧ st pr.1 ≠ AgState.Z) := by
  unfold contactPhase
  refine foldl_preserve
    (fun a => (a.1.map Prod.fst).Nodup ∧ ∀ pr ∈ a.1, pr.2 ≠ [] ∧ st pr.1 ≠ AgState.Z)
    _ g.nodes acc h ?_
  intro a v ha
  cases hstv : st v
  · simpa [hstv] using ha
  · simpa [hstv] using ha
  · simpa [hstv] using infectNeighbors_good st probI p (g.adj v) a ha
  · simpa [hstv] using skepticNeighbors_good st probZ l (g.adj v) a ha

theorem internalPhase_good (g : Graph) (st : Nat → AgState) (pEI pIE : Rat)
    (acc : List (Nat × List AgState) × Rng)
    (h : (acc.1.map Prod.fst).Nodup ∧ ∀ pr ∈ acc.1, pr.2 ≠ [] ∧ st pr.1 ≠ AgState.Z) :
    (((internalPhase g st pEI pIE acc).1.map Prod.fst).Nodup ∧
      ∀ pr ∈ (internalPhase g st pEI pIE acc).1,
        pr.2 ≠ [] ∧ st pr.1 ≠ AgState.Z) := by
  unfold internalPhase
  refine foldl_preserve
    (fun a => (a.1.map Prod.fst).Nodup ∧ ∀ pr ∈ a.1, pr.2 ≠ [] ∧ st pr.1 ≠ AgState.Z)
    _ g.nodes acc h ?_
  intro a v ha
  by_cases hE : st v = AgState.E
  · by_cases hx : (randFloat a.2).1 < pEI
    · simp only [hE, if_pos rfl, hx, if_true]
      exact addProposal_good st a.1 v _ ha (by rw [hE]; intro hc; cases hc)
    · simp only [hE, if_pos rfl, hx, if_false]
      exact ha
  · by_cases hI : st v = AgState.I
    · by_cases hx : (randFloat a.2).1 < pIE
      · simp only [hE, if_neg hE, hI, if_pos rfl, hx, if_true]
        exact addProposal_good st a.1 v _ ha (by rw [hI]; intro hc; cases hc)
      · simp only [hE, if_neg hE, hI, if_pos rfl, hx, if_false]
        exact ha
    · simp only [if_neg hE, if_neg hI]
      exact ha

theorem baselineProposals_good (g : Graph) (probI probZ pEI pIE p l : Rat)
    (st : Nat → AgState) (r : Rng) :
    (((baselineProposals g probI probZ pEI pIE p l st r).1.map Prod.fst).Nodup ∧
      ∀ pr ∈ (baselineProposals g probI probZ pEI pIE p l st r).1,
        pr.2 ≠ [] ∧ st pr.1 ≠ AgState.Z) := by
  unfold baselineProposals
  refine internalPhase_good g st pEI pIE _ (contactPhase_good g st probI probZ p l _ ?_)
  refine ⟨by simp, ?_⟩
  intro pr hpr
  simp at hpr

theorem applyProposals_not_mem :
    ∀ (ps : List (Nat × List AgState)) (st : Nat → AgState) (r : Rng) (v : Nat),
      v ∉ ps.map Prod.fst → (applyProposals ps st r).1 v = st v := by
  intro ps
  induction ps with
  | nil => intro st r v _; rfl
  | cons pr rest ih =>
    intro st r v hv
    simp only [List.map_cons, List.mem_cons] at hv
    push_neg at hv
    have h2 := ih (update st pr.1 (pr.2.getD ((randNat r pr.2.length).1) AgState.S))
      ((randNat r pr.2.length).2) v hv.2
    have h3 : update st pr.1 (pr.2.getD ((randNat r pr.2.length).1) AgState.S) v =
        st v := by
      simp [update, hv.1]
    simp only [applyProposals, List.foldl_cons]
    exact h2.trans h3

theorem applyProposals_lookup_mem :
    ∀ (ps : List (Nat × List AgState)) (st : Nat → AgState) (r : Rng) (v : Nat)
      (plist : List AgState),
      (ps.map Prod.fst).Nodup → (∀ pr ∈ ps, pr.2 ≠ []) →
      ps.lookup v = some plist → (applyProposals ps st r).1 v ∈ plist := by
  intro ps
  induction ps with
  | nil =>
    intro st r v plist _ _ h
    simp at h
  | cons pr rest ih =>
    intro st r v plist hnd hne hlk
    obtain ⟨u, l⟩ := pr
    rw [List.lookup_cons] at hlk
    by_cases huv : v = u
    · subst huv
      simp only [beq_self_eq_true] at hlk
      have hpl : l = plist := Option.some_inj.mp hlk
      simp only [List.map_cons, List.nodup_cons] at hnd
      have hstep := applyProposals_not_mem rest
        (update st v (l.getD ((randNat r l.length).1) AgState.S))
        ((randNat r l.length).2) v hnd.1
      have hval : update st v (l.getD ((randNat r l.length).1) AgState.S) v =
          l.getD ((randNat r l.length).1) AgState.S := by
        simp [update]
      have hlnil : l ≠ [] := hne (v, l) (List.mem_cons_self _ _)
      have hjlt : (randNat r l.length).1 < l.length := by
        have hl0 : l.length ≠ 0 := fun h0 => hlnil (List.eq_nil_of_length_eq_zero h0)
        simp only [randNat]
        exact Nat.mod_lt _ (by omega)
      have hmem : l.getD ((randNat r l.length).1) AgState.S ∈ l := by
        rw [List.getD_eq_getElem l AgState.S hjlt]
        exact List.getElem_mem hjlt
      rw [← hpl]
      have hfinal : (applyProposals ((v, l) :: rest) st r).1 v =
          l.getD ((randNat r l.length).1) AgState.S := by
        simp only [applyProposals, List.foldl_cons]
        exact hstep.trans hval
      rw [hfinal]
      exact hmem
    · have hbeq : (v == u) = false := beq_eq_false_iff_ne.mpr huv
      simp only [hbeq] at hlk
      simp only [List.map_cons, List.nodup_cons] at hnd
      have ihh := ih (update st u (l.getD ((randNat r l.length).1) AgState.S))
        ((randNat r l.length).2) v plist hnd.2
        (fun q hq => hne q (List.mem_cons_of_mem _ hq)) hlk
      simpa only [applyProposals, List.foldl_cons] using ihh

/-- C7: in the baseline step, every proposal is generated from the
configuration at the start of the step (`baselineProposals` reads only the
pre-step `st`); a node that accumulated proposals gets exactly one element
of its proposal list applied (chosen by a generator draw, as
`random.choice`), and a node with no proposals keeps its prior state. -/
theorem baseline_step_proposal_resolution (g : Graph)
    (probI probZ pEI pIE p l : Rat) (st : Nat → AgState) (r : Rng) (v : Nat) :
    (∀ plist,
      (baselineProposals g probI probZ pEI pIE p l st r).1.lookup v = some plist →
        (baselineStep g probI probZ pEI pIE p l st r).1 v ∈ plist) ∧
    ((baselineProposals g probI probZ pEI pIE p l st r).1.lookup v = none →
      (baselineStep g probI probZ pEI pIE p l st r).1 v = st v) := by
  have hgood := baselineProposals_good g probI probZ pEI pIE p l st r
  constructor
  · intro plist hlk
    exact applyProposals_lookup_mem _ st _ v plist hgood.1
      (fun pr hpr => (hgood.2 pr hpr).1) hlk
  · intro hlk
    refine applyProposals_not_mem _ st _ v ?_
    rw [List.lookup_eq_none_iff] at hlk
    intro hmem
    rw [List.mem_map] at hmem
    obtain ⟨pr, hpr, hfst⟩ := hmem
    have hb := hlk pr hpr
    rw [hfst] at hb
    simp at hb

/-- Witness: `baseline_step_proposal_resolution` on a two-node graph where
the infected node 0 proposes Infected to its susceptible neighbor 1, and
the proposal is applied. -/
theorem baseline_step_proposal_resolution_witness :
    ((baselineProposals ⟨[0, 1], fun v => if v = 0 then [1] else [0]⟩ 1 0 0 0 1 0
        (fun v => if v = 0 then AgState.I else AgState.S)
        ⟨fun _ => 0, fun _ => 0, 0⟩).1.lookup 1 = some [AgState.I]) ∧
    (baselineStep ⟨[0, 1], fun v => if v = 0 then [1] else [0]⟩ 1 0 0 0 1 0
        (fun v => if v = 0 then AgState.I else AgState.S)
        ⟨fun _ => 0, fun _ => 0, 0⟩).1 1 ∈ [AgState.I] :=
  ⟨by decide,
    (baseline_step_proposal_resolution ⟨[0, 1], fun v => if v = 0 then [1] else [0]⟩
        1 0 0 0 1 0 (fun v => if v = 0 then AgState.I else AgState.S)
        ⟨fun _ => 0, fun _ => 0, 0⟩ 1).1 [AgState.I] (by decide)⟩

/-! ### Skeptic absorption lemmas -/

theorem baselineStep_preserves_Z (g : Graph) (probI probZ pEI pIE p l : Rat)
    (st : Nat → AgState) (r : Rng) (v : Nat) (hv : st v = AgState.Z) :
    (baselineStep g probI probZ pEI pIE p l st r).1 v = AgState.Z := by
  have hgood := baselineProposals_good g probI probZ pEI pIE p l st r
  have hnm : v ∉ (baselineProposals g probI probZ pEI pIE p l st r).1.map Prod.fst := by
    intro hmem
    rw [List.mem_map] at hmem
    obtain ⟨pr, hpr, hfst⟩ := hmem
    have hz := (hgood.2 pr hpr).2
    rw [hfst] at hz
    exact hz hv
  have happ := applyProposals_not_mem
    (baselineProposals g probI probZ pEI pIE p l st r).1 st
    (baselineProposals g probI probZ pEI pIE p l st r).2 v hnm
  exact happ.trans hv

theorem applyNews_not_mem :
    ∀ (news : List (Nat × AgState)) (st : Nat → AgState) (v : Nat),
      v ∉ news.map Prod.fst → applyNews news st v = st v := by
  intro news
  induction news with
  | nil => intro st v _; rfl
  | cons pr rest ih =>
    intro st v hv
    simp only [List.map_cons, List.mem_cons] at hv
    push_neg at hv
    have h2 := ih (update st pr.1 pr.2) v hv.2
    have h3 : update st pr.1 pr.2 v = st v := by simp [update, hv.1]
    simp only [applyNews, List.foldl_cons]
    exact h2.trans h3

theorem bmPass_keys (g : Graph) (beta b rho p epsilon l mu m : Rat)
    (st : Nat → AgState) (r : Rng) :
    ∀ pr ∈ (bmPass g beta b rho p epsilon l mu m st r).1,
      st pr.1 ≠ AgState.Z := by
  unfold bmPass
  refine foldl_preserve
    (fun acc : List (Nat × AgState) × Rng => ∀ pr ∈ acc.1, st pr.1 ≠ AgState.Z) _
    g.nodes ([], r) ?_ ?_
  · intro pr hpr
    simp at hpr
  · intro a u ha
    have happend : ∀ (s : AgState) (pr : Nat × AgState),
        pr ∈ a.1 ++ [(u, s)] → st u ≠ AgState.Z → st pr.1 ≠ AgState.Z := by
      intro s pr hpr hu
      rcases List.mem_append.mp hpr with h | h
      · exact ha pr h
      · rw [List.mem_singleton.mp h]
        exact hu
    cases hstu : st u
    · cases hs : (bmScanS st beta b p l (g.adj u) a.2).1 with
      | none =>
        simp only [hs]
        exact ha
      | some s =>
        simp only [hs]
        intro pr hpr
        exact happend s pr hpr (by rw [hstu]; intro hc; cases hc)
    · by_cases hx : (randFloat a.2).1 < epsilon
      · simp only [hx, if_true]
        intro pr hpr
        exact happend AgState.I pr hpr (by rw [hstu]; intro hc; cases hc)
      · simp only [hx, if_false]
        cases hs : (bmScanE st rho (g.adj u) (randFloat a.2).2).1 with
        | none =>
          simp only [hs]
          exact ha
        | some s =>
          simp only [hs]
          intro pr hpr
          exact happend s pr hpr (by rw [hstu]; intro hc; cases hc)
    · by_cases hx : (randFloat a.2).1 < mu
      · by_cases hy : (randFloat (randFloat a.2).2).1 < m
        · simp only [hx, if_true, hy]
          intro pr hpr
          exact happend AgState.S pr hpr (by rw [hstu]; intro hc; cases hc)
        · simp only [hx, if_true, hy, if_false]
          exact ha
      · simp only [hx, if_false]
        exact ha
    · exact ha

theorem bmStep_preserves_Z (g : Graph) (beta b rho p epsilon l mu m : Rat)
    (st : Nat → AgState) (r : Rng) (v : Nat) (hv : st v = AgState.Z) :
    (bmStep g beta b rho p epsilon l mu m st r).1 v = AgState.Z := by
  have hkeys := bmPass_keys g beta b rho p epsilon l mu m st r
  have hnm : v ∉ (bmPass g beta b rho p epsilon l mu m st r).1.map Prod.fst := by
    intro hmem
    rw [List.mem_map] at hmem
    obtain ⟨pr, hpr, hfst⟩ := hmem
    have hz := hkeys pr hpr
    rw [hfst] at hz
    exact hz hv
  have happ := applyNews_not_mem (bmPass g beta b rho p epsilon l mu m st r).1
    st v hnm
  exact happ.trans hv

theorem send_messages_preserves_Z (g : Graph) (nMsg : Nat) (T : Rat)
    (theta : Nat) (eta lambd : Rat) (store : Nat → AgentSM) (r : Rng) (v : Nat)
    (hv : (store v).state = AgState.Z) :
    (((send_messages g nMsg T theta eta lambd store r).2.1) v).state =
      AgState.Z := by
  simp only [send_messages]
  refine foldl_preserve
    (fun acc : List Nat × (Nat → AgentSM) × Rng => ((acc.2.1) v).state = AgState.Z)
    _ _ _ hv ?_
  intro a u ha
  by_cases huv : u = v
  · split
    · rename_i hc
      exfalso
      rw [huv] at hc
      have hc' : (a.2.1 v).state = AgState.I := hc
      rw [ha] at hc'
      cases hc'
    · simpa [updateA, huv] using ha
  · have hvu : ¬ v = u := fun hh => huv hh.symm
    split
    · split
      · simpa [updateA, hvu] using ha
      · simpa [updateA, hvu] using ha
    · simpa [updateA, hvu] using ha

theorem spread_toxicity_preserves_Z (g : Graph) (beta rho p : Rat)
    (toxic : List Nat) (store : Nat → AgentSM) (r : Rng) (v : Nat)
    (hv : (store v).state = AgState.Z) :
    ((spread_toxicity g beta rho p toxic store r).1 v).state = AgState.Z := by
  simp only [spread_toxicity]
  refine foldl_preserve
    (fun acc : (Nat → AgentSM) × Rng => ((acc.1) v).state = AgState.Z)
    _ toxic (store, r) hv ?_
  intro a sender ha
  refine foldl_preserve
    (fun acc : (Nat → AgentSM) × Rng => ((acc.1) v).state = AgState.Z)
    _ (g.adj sender) a ha ?_
  intro a2 nb ha2
  by_cases hnbv : nb = v
  · subst hnbv
    have hS : ¬ (a2.1 nb).state = AgState.S := by
      rw [ha2]
      intro hc
      cases hc
    have hE : ¬ (a2.1 nb).state = AgState.E := by
      rw [ha2]
      intro hc
      cases hc
    simpa [hS, hE] using ha2
  · have hvnb : ¬ v = nb := fun hh => hnbv hh.symm
    by_cases hS : (a2.1 nb).state = AgState.S
    · by_cases hx : (randFloat a2.2).1 < beta
      · simpa [hS, hx, updateA, hvnb] using ha2
      · simpa [hS, hx] using ha2
    · by_cases hE : (a2.1 nb).state = AgState.E
      · by_cases hx : (randFloat a2.2).1 < rho
        · simpa [hS, hE, hx, updateA, hvnb] using ha2
        · simpa [hS, hE, hx] using ha2
      · simpa [hS, hE] using ha2

theorem internal_transitions_preserves_Z (g : Graph) (epsilon lambd : Rat)
    (store : Nat → AgentSM) (r : Rng) (v : Nat)
    (hv : (store v).state = AgState.Z) :
    ((internal_transitions g epsilon lambd store r).1 v).state = AgState.Z := by
  simp only [internal_transitions]
  refine foldl_preserve
    (fun acc : (Nat → AgentSM) × Rng => ((acc.1) v).state = AgState.Z)
    _ g.nodes (store, r) hv ?_
  intro a u ha
  by_cases huv : u = v
  · subst huv
    have hE : ¬ (a.1 u).state = AgState.E := by
      rw [ha]
      intro hc
      cases hc
    simpa [hE] using ha
  · have hvu : ¬ v = u := fun hh => huv hh.symm
    by_cases hE : (a.1 u).state = AgState.E
    · by_cases hx : (randFloat a.2).1 < epsilon
      · simpa [hE, hx, updateA, hvu] using ha
      · by_cases hy : (randFloat (randFloat a.2).2).1 < lambd
        · simpa [hE, hx, hy, updateA, hvu] using ha
        · simpa [hE, hx, hy] using ha
    · simpa [hE] using ha

theorem smStep_preserves_Z (g : Graph) (beta rho p epsilon : Rat)
    (nMsg theta : Nat) (T eta lambd : Rat) (store : Nat → AgentSM) (r : Rng)
    (v : Nat) (hv : (store v).state = AgState.Z) :
    ((smStep g beta rho p epsilon nMsg theta T eta lambd store r).1 v).state =
      AgState.Z := by
  exact internal_transitions_preserves_Z g epsilon lambd _ _ v
    (spread_toxicity_preserves_Z g beta rho p _ _ _ v
      (send_messages_preserves_Z g nMsg T theta eta lambd store r v hv))

/-- C10: in all three variants the Skeptic state is absorbing — a node that
is Z at the start of a step is still Z afterwards (no transition rule
targets Z nodes), and hence stays Z across any number of baseline steps of
a run. -/
theorem skeptic_absorbing (g : Graph) (probI probZ pEI pIE p l : Rat)
    (bbeta bb brho bp bepsilon bl bmu bm : Rat)
    (sbeta srho sp sepsilon : Rat) (nMsg theta : Nat) (T eta lambd : Rat)
    (st : Nat → AgState) (store : Nat → AgentSM) (r : Rng) (v : Nat) :
    (st v = AgState.Z →
      (baselineStep g probI probZ pEI pIE p l st r).1 v = AgState.Z) ∧
    (st v = AgState.Z →
      (bmStep g bbeta bb brho bp bepsilon bl bmu bm st r).1 v = AgState.Z) ∧
    ((store v).state = AgState.Z →
      ((smStep g sbeta srho sp sepsilon nMsg theta T eta lambd store r).1 v).state =
        AgState.Z) ∧
    (∀ k, st v = AgState.Z →
      ((fun pr : (Nat → AgState) × Rng =>
        baselineStep g probI probZ pEI pIE p l pr.1 pr.2)^[k] (st, r)).1 v =
          AgState.Z) := by
  refine ⟨fun hv => baselineStep_preserves_Z g probI probZ pEI pIE p l st r v hv,
    fun hv => bmStep_preserves_Z g bbeta bb brho bp bepsilon bl bmu bm st r v hv,
    fun hv => smStep_preserves_Z g sbeta srho sp sepsilon nMsg theta T eta lambd
      store r v hv, ?_⟩
  intro k
  induction k generalizing st r with
  | zero => intro hv; exact hv
  | succ k ih =>
    intro hv
    rw [Function.iterate_succ_apply]
    exact ih _ _ (baselineStep_preserves_Z g probI probZ pEI pIE p l st r v hv)

/-- Witness: `skeptic_absorbing` on a two-node graph with node 0 Skeptic:
it stays Skeptic under a baseline step, a basic-moderator step, a
smart-moderator step, and two iterated baseline steps. -/
theorem skeptic_absorbing_witness :
    (baselineStep ⟨[0, 1], fun v => if v = 0 then [1] else [0]⟩
        (1/2) (1/2) (1/2) (1/2) (1/2) (1/2)
        (fun v => if v = 0 then AgState.Z else AgState.I)
        ⟨fun _ => 0, fun _ => 0, 0⟩).1 0 = AgState.Z ∧
    (bmStep ⟨[0, 1], fun v => if v = 0 then [1] else [0]⟩
        (1/2) (1/2) (1/2) (1/2) (1/2) (1/2) (1/2) (1/2)
        (fun v => if v = 0 then AgState.Z else AgState.I)
        ⟨fun _ => 0, fun _ => 0, 0⟩).1 0 = AgState.Z ∧
    ((smStep ⟨[0, 1], fun v => if v = 0 then [1] else [0]⟩
        (1/2) (1/2) (1/2) (1/2) 2 1 0 (1/2) (1/2)
        (fun v => if v = 0 then ⟨AgState.Z, (0, 0, 0), 0, 0⟩
          else ⟨AgState.I, (1, 1, 1), 0, 0⟩)
        ⟨fun _ => 0, fun _ => 0, 0⟩).1 0).state = AgState.Z ∧
    ((fun pr : (Nat → AgState) × Rng =>
      baselineStep ⟨[0, 1], fun v => if v = 0 then [1] else [0]⟩
        (1/2) (1/2) (1/2) (1/2) (1/2) (1/2) pr.1 pr.2)^[2]
      ((fun v => if v = 0 then AgState.Z else AgState.I),
        ⟨fun _ => 0, fun _ => 0, 0⟩)).1 0 = AgState.Z :=
  (fun h => ⟨h.1 (by decide), h.2.1 (by decide), h.2.2.1 (by decide),
      h.2.2.2 2 (by decide)⟩)
    (skeptic_absorbing ⟨[0, 1], fun v => if v = 0 then [1] else [0]⟩
      (1/2) (1/2) (1/2) (1/2) (1/2) (1/2)
      (1/2) (1/2) (1/2) (1/2) (1/2) (1/2) (1/2) (1/2)
      (1/2) (1/2) (1/2) (1/2) 2 1 0 (1/2) (1/2)
      (fun v => if v = 0 then AgState.Z else AgState.I)
      (fun v => if v = 0 then ⟨AgState.Z, (0, 0, 0), 0, 0⟩
        else ⟨AgState.I, (1, 1, 1), 0, 0⟩)
      ⟨fun _ => 0, fun _ => 0, 0⟩ 0)

end SEIZ
